import Mathlib

/-!
Shallow embedding of the transaction-orchestration backend of
cockpit-pacman (src/backend/src), restricted to the parts the verified
claims are about: the stream-event model (models.rs), the question
responders of preflight and upgrade (handlers/mutation.rs), the
commit-failure classifier (util.rs), and the orchestration drivers
(handlers/mutation.rs, handlers/scheduled.rs, config.rs).

The native package engine (ALPM) is external to the repository; it is
modelled as an oracle: each engine call is given its outcome (success or
an error string), the callback invocations it raises, and the contents of
the transaction sets, as parameters.  The process-wide cancellation flag
and the wall-clock timeout are modelled as boolean oracles indexed by
sampling site: each time the code reads the flags, the next index of the
oracle is consumed, so every interleaving of flag values is covered.
-/

namespace CockpitPacman

/-- Stream events, from models.rs `StreamEvent` (the `mirror_test` variant is
omitted; it is emitted only by the mirror tester, which no claim touches). -/
inductive StreamEvent
  | Log (level message : String)
  | Progress (operation package : String) (percent : Int) (current total : Nat)
  | Download (filename event : String) (downloaded total : Option Int)
  | Event (event : String) (package : Option String)
  | Complete (success : Bool) (message : Option String)
  deriving Repr, DecidableEq

/-- Question payloads, from the `alpm::Question` variants consumed in
handlers/mutation.rs and handlers/scheduled.rs.  The payloads carry the data
the handlers actually read (package names, file path, provider list, key
fingerprint/uid). -/
inductive Question
  | Conflict (package1 package2 : String)
  | Corrupted (filepath : String)
  | RemovePkgs (packages : List String)
  | Replace (oldpkg newpkg : String)
  | InstallIgnorepkg (pkg : String)
  | SelectProvider (dependency : String) (providers : List String)
  | ImportKey (fingerprint uid : String)
  deriving Repr, DecidableEq

/-- Answer given back to the engine for a question: `set_answer(true)`,
`set_answer(false)`, or `set_index(i)` for provider selection. -/
inductive QAnswer
  | allow
  | deny
  | chooseIndex (i : Nat)
  deriving Repr, DecidableEq

/-- models.rs `ConflictInfo`. -/
structure ConflictInfo where
  package1 : String
  package2 : String
  deriving Repr, DecidableEq

/-- models.rs `ReplacementInfo`. -/
structure ReplacementInfo where
  old_package : String
  new_package : String
  deriving Repr, DecidableEq

/-- models.rs `ProviderChoice`. -/
structure ProviderChoice where
  dependency : String
  providers : List String
  deriving Repr, DecidableEq

/-- models.rs `KeyInfo`. -/
structure KeyInfo where
  fingerprint : String
  uid : String
  deriving Repr, DecidableEq

/-- models.rs `PreflightState`: the accumulator filled by the record-mode
question callback of `preflight_upgrade`. -/
structure PreflightState where
  conflicts : List ConflictInfo := []
  replacements : List ReplacementInfo := []
  removals : List String := []
  providers : List ProviderChoice := []
  import_keys : List KeyInfo := []
  deriving Repr, DecidableEq

/-- One invocation of the record-mode question callback installed by
`preflight_upgrade` (handlers/mutation.rs lines 28-73): appends to the
accumulator and answers the engine. -/
def recordQuestion (s : PreflightState) (q : Question) : PreflightState × QAnswer :=
  match q with
  | .Conflict p1 p2 =>
      ({ s with conflicts := s.conflicts ++ [⟨p1, p2⟩] }, .allow)
  | .Corrupted _ => (s, .deny)
  | .RemovePkgs pkgs =>
      ({ s with removals := s.removals ++ pkgs }, .allow)
  | .Replace oldp newp =>
      ({ s with replacements := s.replacements ++ [⟨oldp, newp⟩] }, .allow)
  | .InstallIgnorepkg _ => (s, .deny)
  | .SelectProvider dep provs =>
      ({ s with providers := s.providers ++ [⟨dep, provs⟩] }, .chooseIndex 0)
  | .ImportKey fp uid =>
      ({ s with import_keys := s.import_keys ++ [⟨fp, uid⟩] }, .allow)

/-- The `PreflightState` accumulated over one `prepare()` call that raises
the questions `qs` in order, starting from the default (empty) state. -/
def recordQuestions (qs : List Question) : PreflightState :=
  qs.foldl (fun s q => (recordQuestion s q).1) {}

/-- One invocation of the commit-mode question callback installed by
`run_upgrade` (handlers/mutation.rs lines 251-314): emits log events and
answers the engine. -/
def commitQuestion (q : Question) : List StreamEvent × QAnswer :=
  match q with
  | .Conflict p1 p2 =>
      ([.Log "info" ("Resolving conflict between " ++ p1 ++ " and " ++ p2)], .allow)
  | .Corrupted path =>
      ([.Log "error" ("Package " ++ path ++ " is corrupted - aborting")], .deny)
  | .RemovePkgs pkgs =>
      ([.Log "info" ("Removing packages as confirmed: " ++ String.intercalate ", " pkgs)],
        .allow)
  | .Replace oldp newp =>
      ([.Log "info" ("Replacing " ++ oldp ++ " with " ++ newp)], .allow)
  | .InstallIgnorepkg _ => ([], .deny)
  | .SelectProvider dep provs =>
      ([.Log "info" ("Selecting " ++ (provs.headD "unknown") ++ " as provider for " ++ dep)],
        .chooseIndex 0)
  | .ImportKey fp uid =>
      ([.Log "info" ("Importing PGP key " ++ fp ++ " (" ++ uid ++ ")")], .allow)

/-!  The commit-failure classifier, util.rs `handle_commit_error`
(lines 185-222).  Rust's `to_lowercase`/`contains` on the error string are
modelled over the character list of the string. -/

/-- Lower-cased character sequence of a string (Rust `str::to_lowercase`;
the keyword set is ASCII, for which per-character lowering agrees). -/
def lowerChars (s : String) : List Char :=
  s.data.map Char.toLower

/-- Scan for the needle at every suffix of the haystack. -/
def hasInfix (needle : List Char) : List Char → Bool
  | [] => needle.isEmpty
  | c :: rest => needle.isPrefixOf (c :: rest) || hasInfix needle rest

/-- Rust `str::contains` with a literal substring needle. -/
def containsSub (hay : List Char) (needle : String) : Bool :=
  hasInfix needle.data hay

/-- The keyword fallback of the classifier: the lower-cased error text
contains one of "interrupt", "cancel", "signal", "timeout". -/
def error_indicates_interrupt (errMsg : String) : Bool :=
  let e := lowerChars errMsg
  containsSub e "interrupt" || containsSub e "cancel"
    || containsSub e "signal" || containsSub e "timeout"

/-- Triage result of a failed commit, as distinguished by the three branches
of `handle_commit_error`. -/
inductive CommitOutcome
  | Interrupted (message : String)
  | TimedOut (secs : Nat)
  | Failed (err : String)
  deriving Repr, DecidableEq

/-- util.rs `handle_commit_error` (lines 185-222) as a pure classifier:
`cancelledNow` and `timedOutNow` are the live `is_cancelled()` /
`timeout.is_timed_out()` reads made inside the function, `timeoutSecs` is
`timeout.timeout_secs()`.  The branch taken determines the outcome (the
source emits the corresponding `Complete` event and returns `Ok(false)` for
the first two branches, `Err` for the last). -/
def handle_commit_error (errMsg : String) (wasCancelledBefore wasTimedOutBefore : Bool)
    (cancelledNow timedOutNow : Bool) (timeoutSecs : Nat)
    (interruptedMessage : String) : CommitOutcome :=
  let cancelled_during := !wasCancelledBefore && cancelledNow
  let timed_out_during := !wasTimedOutBefore && timedOutNow
  if cancelled_during || error_indicates_interrupt errMsg then
    .Interrupted interruptedMessage
  else if timed_out_during then
    .TimedOut timeoutSecs
  else
    .Failed errMsg

/-!  Trace model for the orchestration drivers.  A driver run produces a
list of actions: stream events written to stdout, and the calls made on the
engine's transaction handle. -/

/-- One line of the scheduled-run JSONL log (handlers/scheduled.rs
`LogEntry`); the wall-clock `timestamp` field is omitted from the model. -/
structure RunLogEntry where
  mode : String
  success : Bool
  packages_checked : Nat
  packages_upgraded : Nat
  error : Option String
  details : List String
  deriving Repr, DecidableEq

/-- Observable actions of a driver run, in program order. -/
inductive Action
  | emit (e : StreamEvent)
  | transInit (recurse : Bool)
  | transRelease
  | sysupgradeCall
  | prepareCall
  | commitCall
  | removePkg (name : String)
  | dbUpdate
  | logRun (entry : RunLogEntry)
  deriving Repr, DecidableEq

/-- Callback invocations the engine raises during a blocking call.  For
`eventCb` the payload carries the event string and package name as already
mapped by the handler's `match` over `alpm::Event` (the mapping itself is a
data transformation with no claim content). -/
inductive Cb
  | logline (level message : String)
  | download (filename event : String) (downloaded total : Option Int)
  | progress (operation package : String) (percent : Int) (current total : Nat)
  | eventCb (event : String) (package : Option String)
  | question (q : Question)
  deriving Repr, DecidableEq

/-- Callback processing as wired by `run_upgrade`: log, download, event and
question callbacks emit their events; the progress callback first reads the
cancellation flag (one oracle sample) and emits nothing when it is set; the
question callback is the commit-mode responder.  Returns the emitted actions
and the next oracle sample index. -/
def runCbs (co : Nat → Bool) : List Cb → Nat → List Action × Nat
  | [], i => ([], i)
  | .logline lv m :: rest, i =>
      let r := runCbs co rest i
      (Action.emit (.Log lv m) :: r.1, r.2)
  | .download f e d t :: rest, i =>
      let r := runCbs co rest i
      (Action.emit (.Download f e d t) :: r.1, r.2)
  | .progress op p pct cur tot :: rest, i =>
      let r := runCbs co rest (i + 1)
      ((if co i then [] else [Action.emit (.Progress op p pct cur tot)]) ++ r.1, r.2)
  | .eventCb e p :: rest, i =>
      let r := runCbs co rest i
      (Action.emit (.Event e p) :: r.1, r.2)
  | .question q :: rest, i =>
      let r := runCbs co rest i
      ((commitQuestion q).1.map Action.emit ++ r.1, r.2)

/-- Callback processing as wired by `remove_orphans`: log, progress and
event callbacks are installed; no download callback and no question callback
are set, so those invocations produce nothing. -/
def orphanCbs (co : Nat → Bool) : List Cb → Nat → List Action × Nat
  | [], i => ([], i)
  | .logline lv m :: rest, i =>
      let r := orphanCbs co rest i
      (Action.emit (.Log lv m) :: r.1, r.2)
  | .download _ _ _ _ :: rest, i => orphanCbs co rest i
  | .progress op p pct cur tot :: rest, i =>
      let r := orphanCbs co rest (i + 1)
      ((if co i then [] else [Action.emit (.Progress op p pct cur tot)]) ++ r.1, r.2)
  | .eventCb e p :: rest, i =>
      let r := orphanCbs co rest i
      (Action.emit (.Event e p) :: r.1, r.2)
  | .question _ :: rest, i => orphanCbs co rest i

/-- Callback processing as wired by `sync_database`: only the log and
download callbacks are installed, and neither samples the flags. -/
def syncCbActions : List Cb → List Action
  | [] => []
  | .logline lv m :: rest => Action.emit (.Log lv m) :: syncCbActions rest
  | .download f e d t :: rest => Action.emit (.Download f e d t) :: syncCbActions rest
  | _ :: rest => syncCbActions rest

/-- util.rs `CheckResult`. -/
inductive CheckResult
  | Continue
  | Cancelled
  | TimedOut (secs : Nat)
  deriving Repr, DecidableEq

/-- util.rs `check_cancel`: the two flag reads of one phase boundary. -/
def check_cancel (cancelled timedOut : Bool) (timeoutSecs : Nat) : CheckResult :=
  if cancelled then .Cancelled
  else if timedOut then .TimedOut timeoutSecs
  else .Continue

/-- util.rs `emit_cancellation_complete`. -/
def emit_cancellation_complete : CheckResult → List Action
  | .Cancelled => [.emit (.Complete false (some "Operation cancelled by user"))]
  | .TimedOut secs =>
      [.emit (.Complete false
        (some ("Operation timed out after " ++ toString secs ++ " seconds")))]
  | .Continue => []

/-- The stream events of a trace, in emission order. -/
def events (t : List Action) : List StreamEvent :=
  t.filterMap fun a => match a with | .emit e => some e | _ => none

/-- Whether a stream event is the terminal `complete` record. -/
def isCompleteEv : StreamEvent → Bool
  | .Complete _ _ => true
  | _ => false

/-- Number of `complete` records in an event stream. -/
def numCompletes (evs : List StreamEvent) : Nat :=
  evs.countP isCompleteEv

/-- Whether the final record of an event stream is a `complete` record. -/
def lastIsComplete (evs : List StreamEvent) : Bool :=
  match evs.getLast? with
  | some e => isCompleteEv e
  | none => false

/-- Number of `complete` records emitted by a trace. -/
def completesIn (t : List Action) : Nat :=
  numCompletes (events t)

/-- Whether an action is a `trans_release` call. -/
def isRelease : Action → Bool
  | .transRelease => true
  | _ => false

/-- Number of `trans_release` invocations in a trace. -/
def countRelease (t : List Action) : Nat :=
  t.countP isRelease

/-- Engine oracle for one invocation of `run_upgrade`
(handlers/mutation.rs lines 181-394): the outcome of each engine call, the
callback invocations raised inside `prepare` and `commit`, and the
transaction sets reported after `prepare`. -/
structure UpgradeEngine where
  handleOk : Bool := true
  ignoreErr : Option (String × String) := none
  initOk : Bool := true
  sysupgradeErr : Option String := none
  prepareErr : Option String := none
  prepareCbs : List Cb := []
  addPkgs : List String := []
  removePkgs : List String := []
  commitErr : Option String := none
  commitCbs : List Cb := []

/-- The body of `run_upgrade` between the successful construction of the
`TransactionGuard` and the end of its scope.  Boundary samples: index 1 is
the `check_cancel_early!` after transaction init, index 2 the one after
staging; index `pc.2` is the `was_cancelled_before` / `was_timed_out_before`
pair read immediately before `commit()`, and index `cc.2` the re-read inside
the commit-failure classification. -/
def upgradeInScope (eng : UpgradeEngine) (co tmo : Nat → Bool) (secs : Nat) :
    List Action × Except String Unit :=
  match check_cancel (co 1) (tmo 1) secs with
  | .Continue =>
    match eng.sysupgradeErr with
    | some e =>
        ([Action.sysupgradeCall,
          .emit (.Complete false (some ("Failed to prepare system upgrade: " ++ e)))],
         .error ("Failed to prepare system upgrade: " ++ e))
    | none =>
      match check_cancel (co 2) (tmo 2) secs with
      | .Continue =>
        let pc := runCbs co eng.prepareCbs 3
        let pre := [Action.sysupgradeCall, Action.prepareCall] ++ pc.1
        match eng.prepareErr with
        | some e =>
            (pre ++ [.emit (.Complete false (some ("Failed to prepare transaction: " ++ e)))],
             .error ("Failed to prepare transaction: " ++ e))
        | none =>
          if eng.addPkgs.isEmpty && eng.removePkgs.isEmpty then
            (pre ++ [.emit (.Complete true (some "System is up to date"))], .ok ())
          else
            let wasC := co pc.2
            let wasT := tmo pc.2
            let cc := runCbs co eng.commitCbs (pc.2 + 1)
            let pre2 := pre ++ [Action.commitCall] ++ cc.1
            match eng.commitErr with
            | none => (pre2 ++ [.emit (.Complete true none)], .ok ())
            | some e =>
              let cancelled_during := !wasC && co cc.2
              let timed_out_during := !wasT && tmo cc.2
              if cancelled_during || error_indicates_interrupt e then
                (pre2 ++ [.emit (.Complete false
                    (some "Operation interrupted - system may be in inconsistent state"))],
                 .error ("Failed to commit transaction: " ++ e))
              else if timed_out_during then
                (pre2 ++ [.emit (.Complete false
                    (some ("Operation timed out after " ++ toString secs
                      ++ " seconds - system may be in inconsistent state")))],
                 .error ("Failed to commit transaction: " ++ e))
              else
                (pre2 ++ [.emit (.Complete false
                    (some ("Failed to commit transaction: " ++ e)))],
                 .error ("Failed to commit transaction: " ++ e))
      | .Cancelled => (emit_cancellation_complete .Cancelled, .ok ())
      | .TimedOut s => (emit_cancellation_complete (.TimedOut s), .ok ())
  | .Cancelled => (emit_cancellation_complete .Cancelled, .ok ())
  | .TimedOut s => (emit_cancellation_complete (.TimedOut s), .ok ())

/-- handlers/mutation.rs `run_upgrade`: handle acquisition, the ignore-list
loop (whose `inspect_err` emits a `Complete` before the error propagates),
the first `check_cancel_early!` (sample index 0), guard construction (a
failed `trans_init` propagates the error with nothing emitted), the guarded
body, and the scoped `trans_release` appended on every path that constructed
the guard. -/
def runUpgrade (eng : UpgradeEngine) (co tmo : Nat → Bool) (secs : Nat) :
    List Action × Except String Unit :=
  if eng.handleOk then
    match eng.ignoreErr with
    | some pe =>
        ([.emit (.Complete false
            (some ("Failed to ignore package " ++ pe.1 ++ ": " ++ pe.2)))],
         .error ("Failed to ignore package " ++ pe.1 ++ ": " ++ pe.2))
    | none =>
      match check_cancel (co 0) (tmo 0) secs with
      | .Continue =>
        if eng.initOk then
          let body := upgradeInScope eng co tmo secs
          ([Action.transInit false] ++ body.1 ++ [Action.transRelease], body.2)
        else
          ([Action.transInit false], .error "Failed to initialize transaction")
      | .Cancelled => (emit_cancellation_complete .Cancelled, .ok ())
      | .TimedOut s => (emit_cancellation_complete (.TimedOut s), .ok ())
  else
    ([], .error "Failed to initialize alpm handle")

/-- Engine oracle for one invocation of `sync_database`. -/
structure SyncEngine where
  handleOk : Bool := true
  updateErr : Option String := none
  updateCbs : List Cb := []

/-- handlers/mutation.rs `sync_database` (lines 141-179): the
`check_cancel_early!` before any engine work (sample index 0), handle
acquisition (a failure propagates with nothing emitted), the database
update with its callbacks, and the post-update `check_cancel` (sample
index 1) that decides which terminal event is emitted. -/
def syncDatabase (eng : SyncEngine) (co tmo : Nat → Bool) (secs : Nat) :
    List Action × Except String Unit :=
  match check_cancel (co 0) (tmo 0) secs with
  | .Continue =>
    if eng.handleOk then
      let pre := [Action.dbUpdate] ++ syncCbActions eng.updateCbs
      match eng.updateErr with
      | none =>
        match check_cancel (co 1) (tmo 1) secs with
        | .Continue => (pre ++ [.emit (.Complete true none)], .ok ())
        | .Cancelled => (pre ++ emit_cancellation_complete .Cancelled, .ok ())
        | .TimedOut s => (pre ++ emit_cancellation_complete (.TimedOut s), .ok ())
      | some e =>
        match check_cancel (co 1) (tmo 1) secs with
        | .Continue => (pre ++ [.emit (.Complete false (some e))], .error e)
        | .Cancelled => (pre ++ emit_cancellation_complete .Cancelled, .ok ())
        | .TimedOut s => (pre ++ emit_cancellation_complete (.TimedOut s), .ok ())
    else ([], .error "Failed to initialize alpm handle")
  | .Cancelled => (emit_cancellation_complete .Cancelled, .ok ())
  | .TimedOut s => (emit_cancellation_complete (.TimedOut s), .ok ())

/-- alpm `PackageReason` as consumed by the handlers. -/
inductive PackageReason
  | Explicit
  | Depend
  deriving Repr, DecidableEq

/-- A local-database package with the fields `remove_orphans` reads. -/
structure LocalPkg where
  name : String
  reason : PackageReason
  required_by : List String
  optional_for : List String
  deriving Repr, DecidableEq

/-- The orphan query of `remove_orphans` (handlers/mutation.rs lines
402-414): a pure filter over the local database snapshot. -/
def orphanNames (db : List LocalPkg) : List String :=
  (db.filter fun p =>
    p.reason == PackageReason.Depend && p.required_by.isEmpty
      && p.optional_for.isEmpty).map LocalPkg.name

/-- Engine oracle for one invocation of `remove_orphans`. -/
structure OrphanEngine where
  handleOk : Bool := true
  localdb : List LocalPkg := []
  initOk : Bool := true
  removePkgErr : String → Option String := fun _ => none
  prepareErr : Option String := none
  prepareCbs : List Cb := []
  transRemove : List String := []
  commitErr : Option String := none
  commitCbs : List Cb := []

/-- The staging loop of `remove_orphans` (lines 476-485): each orphan name
is looked up again in the local database; on a hit `trans_remove_pkg` is
invoked, and a staging failure emits a warning log and continues. -/
def stageOrphans (db : List LocalPkg) (rerr : String → Option String) :
    List String → List Action
  | [] => []
  | n :: rest =>
    (match db.find? (fun p => p.name == n) with
     | none => []
     | some _ =>
       Action.removePkg n ::
         (match rerr n with
          | some e =>
              [Action.emit (.Log "warning"
                ("Failed to mark " ++ n ++ " for removal: " ++ e))]
          | none => [])) ++ stageOrphans db rerr rest

/-- The tail of `remove_orphans` after the staging loop (handlers/mutation.rs
lines 487-552): the post-staging `check_cancel_early!` (sample index 1,
which returns without releasing the transaction), then `prepare` with its
callbacks, the empty-remove-set short-circuit, commit with its callbacks
and inline failure classification; `trans_release` is managed manually on
each path. -/
def orphanAfterStage (eng : OrphanEngine) (co tmo : Nat → Bool) (secs : Nat) :
    List Action × Except String Unit :=
  match check_cancel (co 1) (tmo 1) secs with
  | .Continue =>
    let pc := orphanCbs co eng.prepareCbs 2
    let pre := [Action.prepareCall] ++ pc.1
    match eng.prepareErr with
    | some e =>
        (pre ++ [Action.transRelease,
          .emit (.Complete false
            (some ("Failed to prepare transaction: " ++ e)))],
         .error ("Failed to prepare transaction: " ++ e))
    | none =>
      if eng.transRemove.isEmpty then
        (pre ++ [Action.transRelease,
          .emit (.Complete true (some "No packages to remove"))], .ok ())
      else
        let wasC := co pc.2
        let wasT := tmo pc.2
        let cc := orphanCbs co eng.commitCbs (pc.2 + 1)
        let pre2 := pre ++ [Action.commitCall] ++ cc.1
        match eng.commitErr with
        | none =>
            (pre2 ++ [Action.transRelease,
              .emit (.Complete true
                (some ("Removed " ++ toString (orphanNames eng.localdb).length
                  ++ " orphan package(s)")))], .ok ())
        | some e =>
          let cancelled_during := !wasC && co cc.2
          let timed_out_during := !wasT && tmo cc.2
          let ev :=
            if cancelled_during || error_indicates_interrupt e then
              StreamEvent.Complete false (some "Operation interrupted")
            else if timed_out_during then
              StreamEvent.Complete false
                (some ("Operation timed out after " ++ toString secs
                  ++ " seconds"))
            else
              StreamEvent.Complete false
                (some ("Failed to commit transaction: " ++ e))
          (pre2 ++ [Action.emit ev, Action.transRelease],
           .error ("Failed to commit transaction: " ++ e))
  | .Cancelled => (emit_cancellation_complete .Cancelled, .ok ())
  | .TimedOut s => (emit_cancellation_complete (.TimedOut s), .ok ())

/-- handlers/mutation.rs `remove_orphans` (lines 396-553): the orphan set is
computed from the database snapshot before any transaction call; an empty
set short-circuits with a success event; `trans_init` uses the RECURSE flag
and a failure propagates with nothing emitted; the staging loop runs, and
the rest of the transaction is `orphanAfterStage`. -/
def removeOrphans (eng : OrphanEngine) (co tmo : Nat → Bool) (secs : Nat) :
    List Action × Except String Unit :=
  if eng.handleOk then
    let orphans := orphanNames eng.localdb
    if orphans.isEmpty then
      ([.emit (.Complete true (some "No orphan packages to remove"))], .ok ())
    else
      match check_cancel (co 0) (tmo 0) secs with
      | .Continue =>
        if eng.initOk then
          let rest := orphanAfterStage eng co tmo secs
          ([Action.transInit true]
            ++ stageOrphans eng.localdb eng.removePkgErr orphans
            ++ rest.1, rest.2)
        else
          ([Action.transInit true], .error "Failed to initialize transaction")
      | .Cancelled => (emit_cancellation_complete .Cancelled, .ok ())
      | .TimedOut s => (emit_cancellation_complete (.TimedOut s), .ok ())
  else
    ([], .error "Failed to initialize alpm handle")

/-- config.rs `ScheduleMode`. -/
inductive ScheduleMode
  | Check
  | Upgrade
  deriving Repr, DecidableEq

/-- The `Display` impl of `ScheduleMode`. -/
def ScheduleMode.toStr : ScheduleMode → String
  | .Check => "check"
  | .Upgrade => "upgrade"

/-- config.rs `ScheduleConfig`; the field defaults encode its `Default`
impl (`enabled: false`, `mode: Upgrade`, `schedule: "weekly"`,
`max_packages: 0`). -/
structure ScheduleConfig where
  enabled : Bool := false
  mode : ScheduleMode := .Upgrade
  schedule : String := "weekly"
  max_packages : Nat := 0
  deriving Repr, DecidableEq

/-- config.rs `AppConfig`; the field defaults encode its derived `Default`
impl. -/
structure AppConfig where
  ignored_packages : List String := []
  schedule : ScheduleConfig := {}
  deriving Repr, DecidableEq

/-- config.rs `AppConfig::load` (lines 81-100).  The configuration file is
modelled as `Option String` (`none` when no file exists at the fixed path);
JSON deserialization of an existing file is the external `serde_json`
library, abstracted as the `parse` parameter.  When the file does not
exist, the default configuration is returned as a success. -/
def AppConfig.load (parse : String → Except String AppConfig)
    (file : Option String) : Except String AppConfig :=
  match file with
  | none => .ok {}
  | some content => parse content

/-- Engine oracle for one invocation of `scheduled_run`.  `sysupgradeQs` and
`prepareQs` are the questions the engine raises during `sync_sysupgrade`
and during `prepare()` respectively; the scheduled-run question callback
only stores detection flags, so these invocations emit nothing. -/
structure SchedEngine where
  handleOk : Bool := true
  syncDbErr : Option String := none
  updates : List (String × String) := []
  initOk : Bool := true
  sysupgradeErr : Option String := none
  sysupgradeQs : List Question := []
  prepareErr : Option String := none
  prepareQs : List Question := []
  addCount : Nat := 0
  commitErr : Option String := none

/-- The `has_conflicts` flag set by the scheduled-run question callback
(scheduled.rs lines 330-339) after the questions `qs` have been raised. -/
def qConflictFlag (qs : List Question) : Bool :=
  qs.any fun q => match q with | .Conflict _ _ => true | _ => false

/-- The `has_removals` flag: set by both `RemovePkgs` and `Replace`. -/
def qRemovalFlag (qs : List Question) : Bool :=
  qs.any fun q =>
    match q with
    | .RemovePkgs _ => true
    | .Replace _ _ => true
    | _ => false

/-- The `has_import_keys` flag. -/
def qImportFlag (qs : List Question) : Bool :=
  qs.any fun q => match q with | .ImportKey _ _ => true | _ => false

/-- handlers/scheduled.rs `scheduled_run` (lines 188-468).  Boundary
samples: index 0 before starting, index 1 after the database sync, index 2
immediately before commit.  The three detection flags are loaded from the
atomics after `sync_sysupgrade` and before `prepare()` runs, exactly as in
the source (lines 372-376), so they only reflect `sysupgradeQs`.  The
wall-clock timestamp, stderr progress lines and log-file I/O errors are not
modelled; a written log entry appears as a `logRun` action. -/
def scheduledRun (cfg : AppConfig) (eng : SchedEngine) (co tmo : Nat → Bool)
    (secs : Nat) : List Action × Except String Unit :=
  if cfg.schedule.enabled = false then ([], .ok ())
  else
    let modeStr := cfg.schedule.mode.toStr
    match check_cancel (co 0) (tmo 0) secs with
    | .Continue =>
      if eng.handleOk then
        match eng.syncDbErr with
        | some e =>
            ([Action.dbUpdate,
              .logRun ⟨modeStr, false, 0, 0,
                some ("Failed to sync databases: " ++ e), []⟩],
             .error ("Failed to sync databases: " ++ e))
        | none =>
          match check_cancel (co 1) (tmo 1) secs with
          | .Continue =>
            let packagesChecked := eng.updates.length
            if eng.updates.isEmpty then
              ([Action.dbUpdate,
                .logRun ⟨modeStr, true, 0, 0, none, ["No updates available"]⟩],
               .ok ())
            else
              let details := eng.updates.map fun u => u.1 ++ " -> " ++ u.2
              if cfg.schedule.mode == ScheduleMode.Check then
                ([Action.dbUpdate,
                  .logRun ⟨modeStr, true, packagesChecked, 0, none, details⟩],
                 .ok ())
              else if cfg.schedule.max_packages > 0
                  && packagesChecked > cfg.schedule.max_packages then
                ([Action.dbUpdate,
                  .logRun ⟨modeStr, true, packagesChecked, 0, none,
                    ["Skipped: " ++ toString packagesChecked
                      ++ " updates exceed safety limit of "
                      ++ toString cfg.schedule.max_packages]⟩],
                 .ok ())
              else if eng.initOk = false then
                ([Action.dbUpdate, Action.transInit false,
                  .logRun ⟨modeStr, false, packagesChecked, 0,
                    some "Failed to initialize transaction", details⟩],
                 .error "Failed to initialize transaction")
              else
                let pre0 := [Action.dbUpdate, Action.transInit false,
                  Action.sysupgradeCall]
                match eng.sysupgradeErr with
                | some e =>
                    (pre0 ++ [.logRun ⟨modeStr, false, packagesChecked, 0,
                        some ("Failed to prepare upgrade: " ++ e), details⟩,
                      Action.transRelease],
                     .error ("Failed to prepare upgrade: " ++ e))
                | none =>
                  let conflictsDetected := qConflictFlag eng.sysupgradeQs
                  let removalsDetected := qRemovalFlag eng.sysupgradeQs
                  let importsDetected := qImportFlag eng.sysupgradeQs
                  let pre1 := pre0 ++ [Action.prepareCall]
                  if eng.prepareErr.isSome || conflictsDetected
                      || removalsDetected || importsDetected then
                    let reasons :=
                      (if conflictsDetected then ["conflicts detected"] else [])
                      ++ (if removalsDetected then ["package removals required"]
                          else [])
                      ++ (if importsDetected then ["key imports required"]
                          else [])
                    (pre1 ++ [.logRun ⟨modeStr, true, packagesChecked, 0, none,
                        ["Skipped: manual intervention required ("
                          ++ String.intercalate ", " reasons ++ ")"]⟩,
                      Action.transRelease], .ok ())
                  else if eng.addCount = 0 then
                    (pre1 ++ [.logRun ⟨modeStr, true, packagesChecked, 0, none,
                        ["No packages to upgrade after preparation"]⟩,
                      Action.transRelease], .ok ())
                  else
                    match check_cancel (co 2) (tmo 2) secs with
                    | .Continue =>
                      match eng.commitErr with
                      | some e =>
                          (pre1 ++ [Action.commitCall,
                            .logRun ⟨modeStr, false, packagesChecked, 0,
                              some ("Failed to commit upgrade: " ++ e), details⟩,
                            Action.transRelease],
                           .error ("Failed to commit upgrade: " ++ e))
                      | none =>
                          (pre1 ++ [Action.commitCall,
                            .logRun ⟨modeStr, true, packagesChecked,
                              eng.addCount, none, details⟩,
                            Action.transRelease], .ok ())
                    | _ =>
                        (pre1 ++ [.logRun ⟨modeStr, false, packagesChecked, 0,
                            some "Operation cancelled or timed out before commit",
                            details⟩,
                          Action.transRelease],
                         .error "Operation cancelled or timed out")
          | _ =>
              ([Action.dbUpdate,
                .logRun ⟨modeStr, false, 0, 0,
                  some "Operation cancelled or timed out after database sync",
                  []⟩],
               .error "Operation cancelled or timed out")
      else ([], .error "Failed to initialize alpm handle")
    | _ =>
        ([.logRun ⟨modeStr, false, 0, 0,
            some "Operation cancelled or timed out before starting", []⟩],
         .error "Operation cancelled or timed out")

/-!  Derived observations used by the theorems. -/

/-- The answer policy as stated by the specification: allow conflicts,
removals, replacements and key imports; deny corrupted packages and
ignored-package installs; always pick the first provider candidate. -/
def claimedAnswer (q : Question) : QAnswer :=
  match q with
  | .Conflict _ _ => .allow
  | .RemovePkgs _ => .allow
  | .Replace _ _ => .allow
  | .ImportKey _ _ => .allow
  | .Corrupted _ => .deny
  | .InstallIgnorepkg _ => .deny
  | .SelectProvider _ _ => .chooseIndex 0

/-- The conflicts entry a question contributes in record mode. -/
def conflictEntry : Question → Option ConflictInfo
  | .Conflict p1 p2 => some ⟨p1, p2⟩
  | _ => none

/-- The replacements entry a question contributes in record mode. -/
def replacementEntry : Question → Option ReplacementInfo
  | .Replace oldp newp => some ⟨oldp, newp⟩
  | _ => none

/-- The providers entry a question contributes in record mode. -/
def providerEntry : Question → Option ProviderChoice
  | .SelectProvider dep provs => some ⟨dep, provs⟩
  | _ => none

/-- The import-keys entry a question contributes in record mode. -/
def keyEntry : Question → Option KeyInfo
  | .ImportKey fp uid => some ⟨fp, uid⟩
  | _ => none

/-- The removals entries a question contributes in record mode. -/
def removalEntries : Question → List String
  | .RemovePkgs pkgs => pkgs
  | _ => []

/-- Total number of entries across all five fields of a `PreflightState`. -/
def totalEntries (s : PreflightState) : Nat :=
  s.conflicts.length + s.replacements.length + s.removals.length
    + s.providers.length + s.import_keys.length

/-- The names passed to `trans_remove_pkg` in a trace, in call order. -/
def stagedNames (t : List Action) : List String :=
  t.filterMap fun a => match a with | .removePkg n => some n | _ => none

/-- Whether a driver result is an error propagated to the exit-code layer. -/
def isErr : Except String Unit → Bool
  | .error _ => true
  | .ok _ => false

/-- A well-terminated event stream: exactly one `complete` record, and it is
the final record. -/
def goodStream (evs : List StreamEvent) : Prop :=
  numCompletes evs = 1 ∧ lastIsComplete evs = true

/-- The `TransactionGuard` of `run_upgrade` is successfully constructed iff
the handle opens, the ignore list applies, the first boundary check passes
and `trans_init` succeeds. -/
def guardConstructed (eng : UpgradeEngine) (co tmo : Nat → Bool) : Bool :=
  eng.handleOk && eng.ignoreErr.isNone && !(co 0) && !(tmo 0) && eng.initOk

/-- Upgrade engine with a pending update, used to exercise the
immediately-before-commit boundary. -/
def preCommitEngine : UpgradeEngine := { addPkgs := ["linux"] }

/-- Cancellation oracle that first reads true at sample index 3, i.e. at
the `was_cancelled_before` read immediately before `commit()` in a run with
no prepare-phase progress callbacks. -/
def lateCancel : Nat → Bool := fun i => decide (3 ≤ i)

/-- Upgrade engine whose `trans_init` fails. -/
def initFailEngine : UpgradeEngine := { initOk := false }

/-- All-false flag oracle: the run is never cancelled and never times out. -/
def quiet : Nat → Bool := fun _ => false

/-- Scheduler configuration for an enabled unattended upgrade run with no
safety cap. -/
def c4Config : AppConfig := { schedule := { enabled := true, mode := .Upgrade } }

/-- Scheduled-run engine where the only raised question is a `Conflict`
raised during `prepare()` (none during staging), with one pending update and
a successful prepare. -/
def c4Engine : SchedEngine :=
  { updates := [("linux", "6.8-1")]
    prepareQs := [Question.Conflict "linux" "linux-lts"]
    addCount := 1 }

/-- A small local database: one orphan (installed as a dependency, with
empty required-by and optional-for lists) and one still-needed dependency. -/
def demoDb : List LocalPkg :=
  [⟨"liborphan", .Depend, [], []⟩, ⟨"libused", .Depend, ["app"], []⟩]

/-- Orphan-removal engine over the demo database. -/
def demoOrphanEng : OrphanEngine := { localdb := demoDb }

/-!  Helper lemmas. -/

theorem events_append (l1 l2 : List Action) :
    events (l1 ++ l2) = events l1 ++ events l2 := by
  simp [events, List.filterMap_append]

theorem numCompletes_append (e1 e2 : List StreamEvent) :
    numCompletes (e1 ++ e2) = numCompletes e1 + numCompletes e2 := by
  simp [numCompletes, List.countP_append]

theorem countRelease_append (l1 l2 : List Action) :
    countRelease (l1 ++ l2) = countRelease l1 + countRelease l2 := by
  simp [countRelease, List.countP_append]

theorem lastIsComplete_concat (evs : List StreamEvent) (b : Bool) (m : Option String) :
    lastIsComplete (evs ++ [StreamEvent.Complete b m]) = true := by
  simp [lastIsComplete, List.getLast?_concat, isCompleteEv]

theorem goodStream_snoc (evs : List StreamEvent) (b : Bool) (m : Option String)
    (h : numCompletes evs = 0) :
    goodStream (evs ++ [StreamEvent.Complete b m]) := by
  refine ⟨?_, lastIsComplete_concat evs b m⟩
  rw [numCompletes_append, h]
  rfl

theorem commitQuestion_events_not_complete (q : Question) :
    ∀ e ∈ (commitQuestion q).1, isCompleteEv e = false := by
  intro e he
  cases q <;> simp [commitQuestion] at he <;> simp [he, isCompleteEv]

theorem runCbs_all_safe (co : Nat → Bool) (cbs : List Cb) (i : Nat) :
    ∀ a ∈ (runCbs co cbs i).1, ∃ e, a = Action.emit e ∧ isCompleteEv e = false := by
  induction cbs generalizing i with
  | nil => simp [runCbs]
  | cons cb rest ih =>
    cases cb with
    | logline lv m =>
      intro a ha
      rcases List.mem_cons.mp ha with h | h
      · exact ⟨_, h, rfl⟩
      · exact ih _ a h
    | download f e d t =>
      intro a ha
      rcases List.mem_cons.mp ha with h | h
      · exact ⟨_, h, rfl⟩
      · exact ih _ a h
    | progress op p pct cur tot =>
      intro a ha
      rcases List.mem_append.mp ha with h | h
      · by_cases hc : co i
        · simp [hc] at h
        · simp [hc] at h
          exact ⟨_, h, rfl⟩
      · exact ih _ a h
    | eventCb e p =>
      intro a ha
      rcases List.mem_cons.mp ha with h | h
      · exact ⟨_, h, rfl⟩
      · exact ih _ a h
    | question q =>
      intro a ha
      rcases List.mem_append.mp ha with h | h
      · obtain ⟨e, he, rfl⟩ := List.mem_map.mp h
        exact ⟨e, rfl, commitQuestion_events_not_complete q e he⟩
      · exact ih _ a h

theorem orphanCbs_all_safe (co : Nat → Bool) (cbs : List Cb) (i : Nat) :
    ∀ a ∈ (orphanCbs co cbs i).1, ∃ e, a = Action.emit e ∧ isCompleteEv e = false := by
  induction cbs generalizing i with
  | nil => simp [orphanCbs]
  | cons cb rest ih =>
    cases cb with
    | logline lv m =>
      intro a ha
      rcases List.mem_cons.mp ha with h | h
      · exact ⟨_, h, rfl⟩
      · exact ih _ a h
    | download f e d t => exact ih _
    | progress op p pct cur tot =>
      intro a ha
      rcases List.mem_append.mp ha with h | h
      · by_cases hc : co i
        · simp [hc] at h
        · simp [hc] at h
          exact ⟨_, h, rfl⟩
      · exact ih _ a h
    | eventCb e p =>
      intro a ha
      rcases List.mem_cons.mp ha with h | h
      · exact ⟨_, h, rfl⟩
      · exact ih _ a h
    | question q => exact ih _

theorem syncCbActions_all_safe (cbs : List Cb) :
    ∀ a ∈ syncCbActions cbs, ∃ e, a = Action.emit e ∧ isCompleteEv e = false := by
  induction cbs with
  | nil => simp [syncCbActions]
  | cons cb rest ih =>
    cases cb with
    | logline lv m =>
      intro a ha
      rcases List.mem_cons.mp ha with h | h
      · exact ⟨_, h, rfl⟩
      · exact ih a h
    | download f e d t =>
      intro a ha
      rcases List.mem_cons.mp ha with h | h
      · exact ⟨_, h, rfl⟩
      · exact ih a h
    | progress op p pct cur tot => exact ih
    | eventCb e p => exact ih
    | question q => exact ih

theorem numCompletes_eq_zero_of_safe (t : List Action)
    (h : ∀ a ∈ t, ∃ e, a = Action.emit e ∧ isCompleteEv e = false) :
    numCompletes (events t) = 0 := by
  induction t with
  | nil => rfl
  | cons a rest ih =>
    obtain ⟨e, rfl, he⟩ := h a (List.mem_cons_self a rest)
    have hr := ih fun a ha => h a (List.mem_cons_of_mem _ ha)
    simp [events, numCompletes, List.filterMap_cons, List.countP_cons, he] at *
    exact hr

theorem countRelease_eq_zero_of_safe (t : List Action)
    (h : ∀ a ∈ t, ∃ e, a = Action.emit e ∧ isCompleteEv e = false) :
    countRelease t = 0 := by
  rw [countRelease, List.countP_eq_zero]
  intro a ha
  obtain ⟨e, rfl, _⟩ := h a ha
  simp [isRelease]

theorem countRelease_nil : countRelease [] = 0 := rfl

theorem countRelease_cons (a : Action) (l : List Action) :
    countRelease (a :: l) = countRelease l + (if isRelease a then 1 else 0) := by
  simp [countRelease, List.countP_cons]

theorem not_mem_of_safe (t : List Action) (a : Action)
    (h : ∀ x ∈ t, ∃ e, x = Action.emit e ∧ isCompleteEv e = false)
    (ha : ∀ e, a ≠ Action.emit e) : a ∉ t := by
  intro hmem
  obtain ⟨e, he, _⟩ := h a hmem
  exact ha e he

/-!  Claim theorems. -/

/-- C10: when the configuration file does not exist at the fixed path,
`AppConfig::load` returns `Ok` with the default configuration — empty
ignored-package list, schedule disabled, mode upgrade, schedule string
"weekly", `max_packages` 0 — for any JSON parser the existing-file branch
would use. -/
theorem C10_load_missing_file_defaults :
    ∀ parse : String → Except String AppConfig,
      AppConfig.load parse none = .ok {} ∧
      ({} : AppConfig).ignored_packages = [] ∧
      ({} : AppConfig).schedule.enabled = false ∧
      ({} : AppConfig).schedule.mode = ScheduleMode.Upgrade ∧
      ({} : AppConfig).schedule.schedule = "weekly" ∧
      ({} : AppConfig).schedule.max_packages = 0 := by
  intro parse
  exact ⟨rfl, rfl, rfl, rfl, rfl, rfl⟩

/-- C6: for every question kind the record-mode (preflight) responder and
the commit-mode (upgrade) responder give the identical answer, and that
answer is: allow for Conflict, RemovePkgs, Replace and ImportKey; deny for
Corrupted and InstallIgnorepkg; the first candidate (index 0) for
SelectProvider. -/
theorem C6_responder_answers_agree :
    ∀ (q : Question) (s : PreflightState),
      (recordQuestion s q).2 = claimedAnswer q
      ∧ (commitQuestion q).2 = claimedAnswer q := by
  intro q s
  cases q <;> exact ⟨rfl, rfl⟩

/-- C2: the commit-failure classifier truth table.  With
cancelled-before false and cancelled-after true the outcome is Interrupted
for any error text; with both false and error "disk full" (and quiescent
timeout) it is Failed with the original error; with both false and an error
whose lower-cased text contains a keyword — in particular
"operation timeout occurred" — it is Interrupted via the keyword fallback;
with cancelled-before and cancelled-after both true, `cancelled_during` is
false and a keyword-free error falls through to TimedOut or Failed per the
timeout state; Interrupted always outranks TimedOut and Failed. -/
theorem C2_commit_classifier_truth_table :
    (∀ (err im : String) (tb tn : Bool) (secs : Nat),
      handle_commit_error err false tb true tn secs im = .Interrupted im)
  ∧ (∀ (im : String) (secs : Nat),
      handle_commit_error "disk full" false false false false secs im
        = .Failed "disk full")
  ∧ (∀ (im : String) (tb tn : Bool) (secs : Nat),
      handle_commit_error "operation timeout occurred" false tb false tn secs im
        = .Interrupted im)
  ∧ (∀ (err im : String) (cb tb cn tn : Bool) (secs : Nat),
      error_indicates_interrupt err = true →
      handle_commit_error err cb tb cn tn secs im = .Interrupted im)
  ∧ (∀ (err im : String) (tb tn : Bool) (secs : Nat),
      error_indicates_interrupt err = false →
      handle_commit_error err true tb true tn secs im
        = (if !tb && tn then .TimedOut secs else .Failed err)) := by
  refine ⟨?_, ?_, ?_, ?_, ?_⟩
  · intro err im tb tn secs
    simp [handle_commit_error]
  · intro im secs
    have hdf : error_indicates_interrupt "disk full" = false := by decide
    simp [handle_commit_error, hdf]
  · intro im tb tn secs
    have hto : error_indicates_interrupt "operation timeout occurred" = true := by
      decide
    simp [handle_commit_error, hto]
  · intro err im cb tb cn tn secs h
    simp [handle_commit_error, h]
  · intro err im tb tn secs h
    simp [handle_commit_error, h]

/-- C2 witness: the classifier applied at concrete inputs, discharging the
keyword hypotheses of the general conjuncts. -/
theorem C2_commit_classifier_truth_table_witness :
    handle_commit_error "user pressed cancel" false false false false 300 "int"
      = .Interrupted "int"
  ∧ handle_commit_error "broken package" true false true false 300 "int"
      = .Failed "broken package" := by
  constructor
  · exact C2_commit_classifier_truth_table.2.2.2.1 "user pressed cancel" "int"
      false false false false 300 (by decide)
  · have h := C2_commit_classifier_truth_table.2.2.2.2 "broken package" "int"
      false false 300 (by decide)
    simpa using h

/-- C5 counterexample: a record-mode run whose single raised question is
`Corrupted` records no entry at all, so the resulting `PreflightState` does
not contain one entry per raised question. -/
theorem C5_counterexample :
    totalEntries (recordQuestions [Question.Corrupted "/cache/foo.pkg.tar.zst"])
      ≠ [Question.Corrupted "/cache/foo.pkg.tar.zst"].length := by
  decide

theorem recordQuestions_foldl (s : PreflightState) (qs : List Question) :
    qs.foldl (fun s q => (recordQuestion s q).1) s =
      { conflicts := s.conflicts ++ qs.filterMap conflictEntry
        replacements := s.replacements ++ qs.filterMap replacementEntry
        removals := s.removals ++ qs.flatMap removalEntries
        providers := s.providers ++ qs.filterMap providerEntry
        import_keys := s.import_keys ++ qs.filterMap keyEntry } := by
  induction qs generalizing s with
  | nil => simp
  | cons q rest ih =>
    cases q <;> rw [List.foldl_cons, ih] <;>
      simp [recordQuestion, conflictEntry, replacementEntry, providerEntry,
        keyEntry, removalEntries, List.append_assoc]

/-- C5 (amended): over one record-mode `prepare()` call raising the
questions `qs` in order, the accumulated `PreflightState` holds, in raised
order and with none dropped, exactly one conflicts entry per `Conflict`,
one replacements entry per `Replace`, one providers entry per
`SelectProvider`, one import-keys entry per `ImportKey`, and one removals
entry per package listed in each `RemovePkgs` payload; `Corrupted` and
`InstallIgnorepkg` questions contribute no entry. -/
theorem C5_record_mode_accumulation (qs : List Question) :
    (recordQuestions qs).conflicts = qs.filterMap conflictEntry
  ∧ (recordQuestions qs).replacements = qs.filterMap replacementEntry
  ∧ (recordQuestions qs).removals = qs.flatMap removalEntries
  ∧ (recordQuestions qs).providers = qs.filterMap providerEntry
  ∧ (recordQuestions qs).import_keys = qs.filterMap keyEntry := by
  rw [recordQuestions, recordQuestions_foldl]
  exact ⟨by simp, by simp, by simp, by simp, by simp⟩

theorem countRelease_runCbs (co : Nat → Bool) (cbs : List Cb) (i : Nat) :
    countRelease (runCbs co cbs i).1 = 0 :=
  countRelease_eq_zero_of_safe _ (runCbs_all_safe co cbs i)

theorem countRelease_emit_cancellation (r : CheckResult) :
    countRelease (emit_cancellation_complete r) = 0 := by
  cases r <;> rfl

theorem check_cancel_continue_iff (c t : Bool) (secs : Nat) :
    check_cancel c t secs = .Continue ↔ c = false ∧ t = false := by
  cases c <;> cases t <;> simp [check_cancel]

theorem countRelease_upgradeInScope (eng : UpgradeEngine) (co tmo : Nat → Bool)
    (secs : Nat) : countRelease (upgradeInScope eng co tmo secs).1 = 0 := by
  dsimp only [upgradeInScope]
  repeat' split
  all_goals
    simp [countRelease_append, countRelease_emit_cancellation, countRelease_runCbs,
      countRelease_cons, countRelease_nil, isRelease]

/-- C1: in the upgrade driver, across every combination of success and
failure of `trans_init`, `sync_sysupgrade`, `prepare` and `commit`, and on
every early return, the handle's `trans_release` is invoked exactly once
whenever the `TransactionGuard` was successfully constructed (and never
otherwise), and that release is the final action of the run, i.e. it
happens at the end of the guard's scope. -/
theorem C1_guard_release_exactly_once (eng : UpgradeEngine) (co tmo : Nat → Bool)
    (secs : Nat) :
    countRelease (runUpgrade eng co tmo secs).1
      = (if guardConstructed eng co tmo then 1 else 0)
  ∧ (guardConstructed eng co tmo = true →
      (runUpgrade eng co tmo secs).1.getLast? = some Action.transRelease) := by
  constructor
  · cases hh : eng.handleOk with
    | false => simp [runUpgrade, guardConstructed, hh, countRelease_nil]
    | true =>
      cases hig : eng.ignoreErr with
      | some pe =>
        simp [runUpgrade, guardConstructed, hh, hig, countRelease_cons,
          countRelease_nil, isRelease]
      | none =>
        cases hc : co 0 with
        | true =>
          simp [runUpgrade, guardConstructed, hh, hig, hc, check_cancel,
            countRelease_emit_cancellation]
        | false =>
          cases ht : tmo 0 with
          | true =>
            simp [runUpgrade, guardConstructed, hh, hig, hc, ht, check_cancel,
              countRelease_emit_cancellation]
          | false =>
            cases hi : eng.initOk with
            | false =>
              simp [runUpgrade, guardConstructed, hh, hig, hc, ht, hi, check_cancel,
                countRelease_cons, countRelease_nil, isRelease]
            | true =>
              simp [runUpgrade, guardConstructed, hh, hig, hc, ht, hi, check_cancel,
                countRelease_append, countRelease_upgradeInScope, countRelease_cons,
                countRelease_nil, isRelease]
  · intro hg
    unfold guardConstructed at hg
    simp only [Bool.and_eq_true, Bool.not_eq_true'] at hg
    obtain ⟨⟨⟨⟨hh, hig⟩, hc⟩, ht⟩, hi⟩ := hg
    rw [Option.isNone_iff_eq_none] at hig
    simp only [runUpgrade, hh, hig, hc, ht, hi, check_cancel, if_true, if_false,
      Bool.false_eq_true]
    rw [List.getLast?_concat]

/-- C1 witness: a fully successful run constructs the guard and releases
exactly once, with the release as the final action. -/
theorem C1_guard_release_exactly_once_witness :
    countRelease (runUpgrade {} quiet quiet 300).1 = 1
  ∧ (runUpgrade {} quiet quiet 300).1.getLast? = some Action.transRelease := by
  have h := C1_guard_release_exactly_once {} quiet quiet 300
  refine ⟨?_, h.2 (by decide)⟩
  have h1 := h.1
  rw [show guardConstructed {} quiet quiet = true by decide] at h1
  simpa using h1

/-- C9: when `prepare()` succeeds and both the add set and the remove set
are empty, the upgrade driver's last emitted event is
`complete{success:true, message:"System is up to date"}` and `commit()` is
never invoked. -/
theorem C9_up_to_date_no_commit (eng : UpgradeEngine) (co tmo : Nat → Bool)
    (secs : Nat)
    (hh : eng.handleOk = true) (hig : eng.ignoreErr = none) (hi : eng.initOk = true)
    (hs : eng.sysupgradeErr = none) (hp : eng.prepareErr = none)
    (ha : eng.addPkgs = []) (hr : eng.removePkgs = [])
    (hc0 : co 0 = false) (ht0 : tmo 0 = false) (hc1 : co 1 = false)
    (ht1 : tmo 1 = false) (hc2 : co 2 = false) (ht2 : tmo 2 = false) :
    (events (runUpgrade eng co tmo secs).1).getLast?
      = some (StreamEvent.Complete true (some "System is up to date"))
  ∧ Action.commitCall ∉ (runUpgrade eng co tmo secs).1 := by
  have hbody : (upgradeInScope eng co tmo secs).1
      = [Action.sysupgradeCall, Action.prepareCall] ++ (runCbs co eng.prepareCbs 3).1
        ++ [Action.emit (StreamEvent.Complete true (some "System is up to date"))] := by
    dsimp only [upgradeInScope]
    simp [hs, hp, ha, hr, hc1, ht1, hc2, ht2, check_cancel]
  have htr : (runUpgrade eng co tmo secs).1
      = [Action.transInit false] ++ (upgradeInScope eng co tmo secs).1
        ++ [Action.transRelease] := by
    simp [runUpgrade, hh, hig, hc0, ht0, hi, check_cancel]
  have hnc : Action.commitCall ∉ (runCbs co eng.prepareCbs 3).1 :=
    not_mem_of_safe _ _ (runCbs_all_safe co eng.prepareCbs 3) (fun e h => nomatch h)
  rw [htr, hbody]
  constructor
  · simp [events_append, events, List.filterMap_cons, List.getLast?_concat]
  · simp [List.mem_append, List.mem_cons]
    exact hnc

/-- C9 witness: the theorem applied to a concrete quiescent engine whose
prepare reports empty add and remove sets. -/
theorem C9_up_to_date_no_commit_witness :
    (events (runUpgrade {} quiet quiet 300).1).getLast?
      = some (StreamEvent.Complete true (some "System is up to date"))
  ∧ Action.commitCall ∉ (runUpgrade {} quiet quiet 300).1 :=
  C9_up_to_date_no_commit {} quiet quiet 300 rfl rfl rfl rfl rfl rfl rfl rfl rfl
    rfl rfl rfl rfl

theorem commitCall_inScope_checks (eng : UpgradeEngine) (co tmo : Nat → Bool)
    (secs : Nat) :
    Action.commitCall ∈ (upgradeInScope eng co tmo secs).1 →
      co 1 = false ∧ tmo 1 = false ∧ co 2 = false ∧ tmo 2 = false := by
  intro hmem
  cases hc1 : co 1 with
  | true =>
    dsimp only [upgradeInScope] at hmem
    simp [check_cancel, hc1, emit_cancellation_complete] at hmem
  | false =>
    cases ht1 : tmo 1 with
    | true =>
      dsimp only [upgradeInScope] at hmem
      simp [check_cancel, hc1, ht1, emit_cancellation_complete] at hmem
    | false =>
      cases hc2 : co 2 with
      | true =>
        dsimp only [upgradeInScope] at hmem
        cases hs : eng.sysupgradeErr with
        | some e => simp [check_cancel, hc1, ht1, hs] at hmem
        | none => simp [check_cancel, hc1, ht1, hc2, hs, emit_cancellation_complete] at hmem
      | false =>
        cases ht2 : tmo 2 with
        | true =>
          dsimp only [upgradeInScope] at hmem
          cases hs : eng.sysupgradeErr with
          | some e => simp [check_cancel, hc1, ht1, hs] at hmem
          | none =>
            simp [check_cancel, hc1, ht1, hc2, ht2, hs, emit_cancellation_complete] at hmem
        | false => exact ⟨rfl, rfl, rfl, rfl⟩

/-- C3 counterexample: with the cancellation flag first reading true exactly
at the immediately-before-commit boundary (sample index 3, with no
prepare-phase callbacks), the upgrade driver still invokes `commit()` — the
fourth boundary sample does not cause a return. -/
theorem C3_counterexample :
    lateCancel 3 = true
  ∧ Action.commitCall ∈ (runUpgrade preCommitEngine lateCancel quiet 300).1 := by
  decide

/-- C3 (amended): cancellation and timeout are sampled together at all four
phase boundaries of the upgrade driver, but only the first three checks
gate execution: `commit()` is reached only if both flags read false at
boundaries 0, 1 and 2, while at the immediately-before-commit boundary the
sampled values are recorded solely for the commit-failure classification
and `commit()` is invoked regardless of them. -/
theorem C3_boundary_checks (eng : UpgradeEngine) (co tmo : Nat → Bool) (secs : Nat) :
    (Action.commitCall ∈ (runUpgrade eng co tmo secs).1 →
      co 0 = false ∧ tmo 0 = false ∧ co 1 = false ∧ tmo 1 = false
        ∧ co 2 = false ∧ tmo 2 = false)
  ∧ (eng.handleOk = true → eng.ignoreErr = none → eng.initOk = true →
      eng.sysupgradeErr = none → eng.prepareErr = none → eng.prepareCbs = [] →
      (eng.addPkgs.isEmpty && eng.removePkgs.isEmpty) = false →
      co 0 = false → tmo 0 = false → co 1 = false → tmo 1 = false →
      co 2 = false → tmo 2 = false →
      Action.commitCall ∈ (runUpgrade eng co tmo secs).1) := by
  constructor
  · intro hmem
    cases hh : eng.handleOk with
    | false => simp [runUpgrade, hh] at hmem
    | true =>
      cases hig : eng.ignoreErr with
      | some pe => simp [runUpgrade, hh, hig] at hmem
      | none =>
        cases hc0 : co 0 with
        | true =>
          simp [runUpgrade, hh, hig, hc0, check_cancel, emit_cancellation_complete] at hmem
        | false =>
          cases ht0 : tmo 0 with
          | true =>
            simp [runUpgrade, hh, hig, hc0, ht0, check_cancel,
              emit_cancellation_complete] at hmem
          | false =>
            cases hi : eng.initOk with
            | false => simp [runUpgrade, hh, hig, hc0, ht0, hi, check_cancel] at hmem
            | true =>
              have hmem' : Action.commitCall ∈ (upgradeInScope eng co tmo secs).1 := by
                simp [runUpgrade, hh, hig, hc0, ht0, hi, check_cancel,
                  List.mem_append, List.mem_cons] at hmem
                exact hmem
              obtain ⟨h1, h2, h3, h4⟩ := commitCall_inScope_checks eng co tmo secs hmem'
              exact ⟨rfl, rfl, h1, h2, h3, h4⟩
  · intro hh hig hi hs hp hpcb hne hc0 ht0 hc1 ht1 hc2 ht2
    have hbody : Action.commitCall ∈ (upgradeInScope eng co tmo secs).1 := by
      dsimp only [upgradeInScope]
      cases hce : eng.commitErr with
      | none => simp [hs, hp, hpcb, hne, hc1, ht1, hc2, ht2, check_cancel, runCbs]
      | some e =>
        simp only [hs, hp, hpcb, hne, hc1, ht1, hc2, ht2, check_cancel, runCbs,
          if_false, Bool.false_eq_true]
        split
        · simp [runCbs]
        · split <;> simp [runCbs]
    simp [runUpgrade, hh, hig, hc0, ht0, hi, check_cancel, List.mem_append, hbody]

/-- C3 witness: the amended theorem at a concrete engine with a pending
update and a cancellation arriving exactly at the pre-commit boundary. -/
theorem C3_boundary_checks_witness :
    Action.commitCall ∈ (runUpgrade preCommitEngine lateCancel quiet 300).1
  ∧ (lateCancel 0 = false ∧ quiet 0 = false ∧ lateCancel 1 = false ∧ quiet 1 = false
      ∧ lateCancel 2 = false ∧ quiet 2 = false) := by
  have h2 := (C3_boundary_checks preCommitEngine lateCancel quiet 300).2
    rfl rfl rfl rfl rfl rfl rfl rfl rfl rfl rfl rfl rfl
  exact ⟨h2, (C3_boundary_checks preCommitEngine lateCancel quiet 300).1 h2⟩

theorem completesIn_nil : completesIn [] = 0 := rfl

theorem completesIn_cons (a : Action) (t : List Action) :
    completesIn (a :: t)
      = (match a with
          | .emit e => if isCompleteEv e then 1 else 0
          | _ => 0) + completesIn t := by
  cases a <;>
    simp [completesIn, events, numCompletes, List.filterMap_cons, List.countP_cons,
      Nat.add_comm]

theorem completesIn_append (l1 l2 : List Action) :
    completesIn (l1 ++ l2) = completesIn l1 + completesIn l2 := by
  simp [completesIn, events_append, numCompletes_append]

theorem completesIn_runCbs (co : Nat → Bool) (cbs : List Cb) (i : Nat) :
    completesIn (runCbs co cbs i).1 = 0 :=
  numCompletes_eq_zero_of_safe _ (runCbs_all_safe co cbs i)

theorem completesIn_orphanCbs (co : Nat → Bool) (cbs : List Cb) (i : Nat) :
    completesIn (orphanCbs co cbs i).1 = 0 :=
  numCompletes_eq_zero_of_safe _ (orphanCbs_all_safe co cbs i)

theorem completesIn_syncCbActions (cbs : List Cb) :
    completesIn (syncCbActions cbs) = 0 :=
  numCompletes_eq_zero_of_safe _ (syncCbActions_all_safe cbs)

theorem completesIn_stageOrphans (db : List LocalPkg) (rerr : String → Option String)
    (names : List String) : completesIn (stageOrphans db rerr names) = 0 := by
  induction names with
  | nil => rfl
  | cons n rest ih =>
    rw [stageOrphans, completesIn_append, ih]
    cases hf : db.find? (fun p => p.name == n) with
    | none => rfl
    | some p =>
      cases hr : rerr n <;>
        simp [completesIn_cons, completesIn_nil, isCompleteEv]

theorem events_of_emit_cons (e : StreamEvent) (t : List Action) :
    events (Action.emit e :: t) = e :: events t := by
  simp [events, List.filterMap_cons]

theorem goodStream_emit_then (pre : List Action) (b : Bool) (m : Option String)
    (post : List Action) (hpre : completesIn pre = 0) (hpost : events post = []) :
    goodStream (events (pre ++ (Action.emit (StreamEvent.Complete b m) :: post))) := by
  have : events (pre ++ (Action.emit (StreamEvent.Complete b m) :: post))
      = events pre ++ [StreamEvent.Complete b m] := by
    rw [events_append, events_of_emit_cons, hpost]
  rw [this]
  exact goodStream_snoc _ b m hpre

theorem events_guard_wrap (inner : List Action) :
    events ([Action.transInit false] ++ inner ++ [Action.transRelease])
      = events inner := by
  rw [events_append, events_append]
  simp [events]

theorem goodStream_upgradeInScope (eng : UpgradeEngine) (co tmo : Nat → Bool)
    (secs : Nat) : goodStream (events (upgradeInScope eng co tmo secs).1) := by
  dsimp only [upgradeInScope]
  repeat' split
  · exact goodStream_emit_then [Action.sysupgradeCall] false _ [] rfl rfl
  · exact goodStream_emit_then _ false _ [] (by
      simp [completesIn_append, completesIn_cons, completesIn_nil,
        completesIn_runCbs]) rfl
  · exact goodStream_emit_then _ true _ [] (by
      simp [completesIn_append, completesIn_cons, completesIn_nil,
        completesIn_runCbs]) rfl
  · exact goodStream_emit_then _ true _ [] (by
      simp [completesIn_append, completesIn_cons, completesIn_nil,
        completesIn_runCbs]) rfl
  · exact goodStream_emit_then _ false _ [] (by
      simp [completesIn_append, completesIn_cons, completesIn_nil,
        completesIn_runCbs]) rfl
  · exact goodStream_emit_then _ false _ [] (by
      simp [completesIn_append, completesIn_cons, completesIn_nil,
        completesIn_runCbs]) rfl
  · exact goodStream_emit_then _ false _ [] (by
      simp [completesIn_append, completesIn_cons, completesIn_nil,
        completesIn_runCbs]) rfl
  · exact ⟨rfl, rfl⟩
  · exact ⟨rfl, rfl⟩
  · exact ⟨rfl, rfl⟩
  · exact ⟨rfl, rfl⟩

theorem goodStream_release_emit (pre : List Action) (b : Bool) (m : Option String)
    (hpre : completesIn pre = 0) :
    goodStream (events
      (pre ++ [Action.transRelease, Action.emit (StreamEvent.Complete b m)])) := by
  rw [events_append]
  exact goodStream_snoc _ b m hpre

theorem upgrade_terminal (eng : UpgradeEngine) (co tmo : Nat → Bool) (secs : Nat) :
    goodStream (events (runUpgrade eng co tmo secs).1)
  ∨ (events (runUpgrade eng co tmo secs).1 = []
      ∧ isErr (runUpgrade eng co tmo secs).2 = true
      ∧ (eng.handleOk = false ∨ eng.initOk = false)) := by
  cases hh : eng.handleOk with
  | false =>
    right
    exact ⟨by simp [runUpgrade, hh, events], by simp [runUpgrade, hh, isErr],
      Or.inl rfl⟩
  | true =>
    cases hig : eng.ignoreErr with
    | some pe =>
      left
      simp only [runUpgrade, hh, hig, if_true]
      exact ⟨rfl, rfl⟩
    | none =>
      cases hc0 : co 0 with
      | true =>
        left
        simp [runUpgrade, hh, hig, hc0, check_cancel, emit_cancellation_complete]
        exact ⟨rfl, rfl⟩
      | false =>
        cases ht0 : tmo 0 with
        | true =>
          left
          simp [runUpgrade, hh, hig, hc0, ht0, check_cancel,
            emit_cancellation_complete]
          exact ⟨rfl, rfl⟩
        | false =>
          cases hi : eng.initOk with
          | false =>
            right
            refine ⟨?_, ?_, Or.inr rfl⟩
            · simp [runUpgrade, hh, hig, hc0, ht0, hi, check_cancel, events]
            · simp [runUpgrade, hh, hig, hc0, ht0, hi, check_cancel, isErr]
          | true =>
            left
            have htr : (runUpgrade eng co tmo secs).1
                = [Action.transInit false] ++ (upgradeInScope eng co tmo secs).1
                  ++ [Action.transRelease] := by
              simp [runUpgrade, hh, hig, hc0, ht0, hi, check_cancel]
            rw [htr, events_guard_wrap]
            exact goodStream_upgradeInScope eng co tmo secs

theorem sync_terminal (eng : SyncEngine) (co tmo : Nat → Bool) (secs : Nat) :
    goodStream (events (syncDatabase eng co tmo secs).1)
  ∨ (events (syncDatabase eng co tmo secs).1 = []
      ∧ isErr (syncDatabase eng co tmo secs).2 = true
      ∧ eng.handleOk = false) := by
  have hpre : completesIn ([Action.dbUpdate] ++ syncCbActions eng.updateCbs) = 0 := by
    simp [completesIn_append, completesIn_cons, completesIn_nil,
      completesIn_syncCbActions]
  cases hc0 : co 0 with
  | true =>
    left
    simp [syncDatabase, hc0, check_cancel, emit_cancellation_complete]
    exact ⟨rfl, rfl⟩
  | false =>
    cases ht0 : tmo 0 with
    | true =>
      left
      simp [syncDatabase, hc0, ht0, check_cancel, emit_cancellation_complete]
      exact ⟨rfl, rfl⟩
    | false =>
      cases hh : eng.handleOk with
      | false =>
        right
        exact ⟨by simp [syncDatabase, hc0, ht0, hh, check_cancel, events],
          by simp [syncDatabase, hc0, ht0, hh, check_cancel, isErr], rfl⟩
      | true =>
        left
        cases hu : eng.updateErr with
        | none =>
          cases hc1 : co 1 with
          | true =>
            simp only [syncDatabase, hc0, ht0, hh, hu, hc1, check_cancel, if_true,
              if_false, emit_cancellation_complete, Bool.false_eq_true]
            exact goodStream_emit_then _ false _ [] hpre rfl
          | false =>
            cases ht1 : tmo 1 with
            | true =>
              simp only [syncDatabase, hc0, ht0, hh, hu, hc1, ht1, check_cancel,
                if_true, if_false, emit_cancellation_complete, Bool.false_eq_true]
              exact goodStream_emit_then _ false _ [] hpre rfl
            | false =>
              simp only [syncDatabase, hc0, ht0, hh, hu, hc1, ht1, check_cancel,
                if_true, if_false, Bool.false_eq_true]
              exact goodStream_emit_then _ true _ [] hpre rfl
        | some e =>
          cases hc1 : co 1 with
          | true =>
            simp only [syncDatabase, hc0, ht0, hh, hu, hc1, check_cancel, if_true,
              if_false, emit_cancellation_complete, Bool.false_eq_true]
            exact goodStream_emit_then _ false _ [] hpre rfl
          | false =>
            cases ht1 : tmo 1 with
            | true =>
              simp only [syncDatabase, hc0, ht0, hh, hu, hc1, ht1, check_cancel,
                if_true, if_false, emit_cancellation_complete, Bool.false_eq_true]
              exact goodStream_emit_then _ false _ [] hpre rfl
            | false =>
              simp only [syncDatabase, hc0, ht0, hh, hu, hc1, ht1, check_cancel,
                if_true, if_false, Bool.false_eq_true]
              exact goodStream_emit_then _ false _ [] hpre rfl

theorem goodStream_append_left (pre evs : List StreamEvent)
    (hpre : numCompletes pre = 0) (h : goodStream evs) :
    goodStream (pre ++ evs) := by
  obtain ⟨h1, h2⟩ := h
  have hne : evs ≠ [] := by
    intro he
    rw [he] at h1
    exact absurd h1 (by decide)
  refine ⟨by rw [numCompletes_append, hpre, h1], ?_⟩
  unfold lastIsComplete at h2 ⊢
  rw [List.getLast?_append_of_ne_nil _ hne]
  exact h2

theorem goodStream_orphanAfterStage (eng : OrphanEngine) (co tmo : Nat → Bool)
    (secs : Nat) : goodStream (events (orphanAfterStage eng co tmo secs).1) := by
  dsimp only [orphanAfterStage]
  repeat' split
  · exact goodStream_release_emit _ false _ (by
      simp [completesIn_append, completesIn_cons, completesIn_nil,
        completesIn_orphanCbs])
  · exact goodStream_release_emit _ true _ (by
      simp [completesIn_append, completesIn_cons, completesIn_nil,
        completesIn_orphanCbs])
  · exact goodStream_release_emit _ true _ (by
      simp [completesIn_append, completesIn_cons, completesIn_nil,
        completesIn_orphanCbs])
  · exact goodStream_emit_then _ false _ [Action.transRelease] (by
      simp [completesIn_append, completesIn_cons, completesIn_nil,
        completesIn_orphanCbs]) rfl
  · exact goodStream_emit_then _ false _ [Action.transRelease] (by
      simp [completesIn_append, completesIn_cons, completesIn_nil,
        completesIn_orphanCbs]) rfl
  · exact goodStream_emit_then _ false _ [Action.transRelease] (by
      simp [completesIn_append, completesIn_cons, completesIn_nil,
        completesIn_orphanCbs]) rfl
  · exact ⟨rfl, rfl⟩
  · exact ⟨rfl, rfl⟩

theorem orphans_terminal (eng : OrphanEngine) (co tmo : Nat → Bool) (secs : Nat) :
    goodStream (events (removeOrphans eng co tmo secs).1)
  ∨ (events (removeOrphans eng co tmo secs).1 = []
      ∧ isErr (removeOrphans eng co tmo secs).2 = true
      ∧ (eng.handleOk = false ∨ eng.initOk = false)) := by
  cases hh : eng.handleOk with
  | false =>
    right
    exact ⟨by simp [removeOrphans, hh, events],
      by simp [removeOrphans, hh, isErr], Or.inl rfl⟩
  | true =>
    cases ho : (orphanNames eng.localdb).isEmpty with
    | true =>
      left
      simp only [removeOrphans, hh, ho, if_true]
      exact ⟨rfl, rfl⟩
    | false =>
      cases hc0 : co 0 with
      | true =>
        left
        simp [removeOrphans, hh, ho, hc0, check_cancel, emit_cancellation_complete]
        exact ⟨rfl, rfl⟩
      | false =>
        cases ht0 : tmo 0 with
        | true =>
          left
          simp [removeOrphans, hh, ho, hc0, ht0, check_cancel,
            emit_cancellation_complete]
          exact ⟨rfl, rfl⟩
        | false =>
          cases hi : eng.initOk with
          | false =>
            right
            refine ⟨?_, ?_, Or.inr rfl⟩
            · simp [removeOrphans, hh, ho, hc0, ht0, hi, check_cancel, events]
            · simp [removeOrphans, hh, ho, hc0, ht0, hi, check_cancel, isErr]
          | true =>
            left
            have htr : (removeOrphans eng co tmo secs).1
                = ([Action.transInit true]
                    ++ stageOrphans eng.localdb eng.removePkgErr
                      (orphanNames eng.localdb))
                  ++ (orphanAfterStage eng co tmo secs).1 := by
              simp [removeOrphans, hh, ho, hc0, ht0, hi, check_cancel,
                List.append_assoc]
            rw [htr, events_append]
            refine goodStream_append_left _ _ ?_
              (goodStream_orphanAfterStage eng co tmo secs)
            have : completesIn ([Action.transInit true]
                ++ stageOrphans eng.localdb eng.removePkgErr
                  (orphanNames eng.localdb)) = 0 := by
              simp [completesIn_append, completesIn_cons, completesIn_nil,
                completesIn_stageOrphans]
            exact this

/-- C7 counterexample: when `trans_init` fails, the upgrade driver
propagates the error without emitting any event, so its output stream does
not contain exactly one terminal complete event. -/
theorem C7_counterexample :
    numCompletes (events (runUpgrade initFailEngine quiet quiet 300).1) ≠ 1 := by
  decide

/-- C7 (amended): on every execution path of database sync, upgrade and
orphan removal, the driver emits exactly one terminal `complete` event,
which is the last event of its output stream — except on the paths where
acquiring the engine handle or initializing the transaction fails, on which
nothing is emitted and the error is propagated to the exit-code layer. -/
theorem C7_terminal_complete_events :
    (∀ (eng : SyncEngine) (co tmo : Nat → Bool) (secs : Nat),
      goodStream (events (syncDatabase eng co tmo secs).1)
      ∨ (events (syncDatabase eng co tmo secs).1 = []
          ∧ isErr (syncDatabase eng co tmo secs).2 = true
          ∧ eng.handleOk = false))
  ∧ (∀ (eng : UpgradeEngine) (co tmo : Nat → Bool) (secs : Nat),
      goodStream (events (runUpgrade eng co tmo secs).1)
      ∨ (events (runUpgrade eng co tmo secs).1 = []
          ∧ isErr (runUpgrade eng co tmo secs).2 = true
          ∧ (eng.handleOk = false ∨ eng.initOk = false)))
  ∧ (∀ (eng : OrphanEngine) (co tmo : Nat → Bool) (secs : Nat),
      goodStream (events (removeOrphans eng co tmo secs).1)
      ∨ (events (removeOrphans eng co tmo secs).1 = []
          ∧ isErr (removeOrphans eng co tmo secs).2 = true
          ∧ (eng.handleOk = false ∨ eng.initOk = false))) :=
  ⟨sync_terminal, upgrade_terminal, orphans_terminal⟩

/-- C4 (failing input for the claim): a scheduled run in upgrade mode where
the engine raises a `Conflict` question during `prepare()` (and none during
staging).  The detection flags are loaded before `prepare()` runs, so the
conflict goes unseen: the run invokes `commit()` and its log entry is the
ordinary success entry, not a skip record. -/
theorem C4_commit_despite_prepare_conflict :
    c4Engine.prepareQs = [Question.Conflict "linux" "linux-lts"]
  ∧ Action.commitCall ∈ (scheduledRun c4Config c4Engine quiet quiet 1800).1
  ∧ Action.logRun ⟨"upgrade", true, 1, 1, none, ["linux -> 6.8-1"]⟩
      ∈ (scheduledRun c4Config c4Engine quiet quiet 1800).1 := by
  decide

theorem stagedNames_of_safe (t : List Action)
    (h : ∀ a ∈ t, ∃ e, a = Action.emit e ∧ isCompleteEv e = false) :
    stagedNames t = [] := by
  rw [stagedNames, List.filterMap_eq_nil_iff]
  intro a ha
  obtain ⟨e, rfl, _⟩ := h a ha
  rfl

theorem stagedNames_orphanAfterStage (eng : OrphanEngine) (co tmo : Nat → Bool)
    (secs : Nat) : stagedNames (orphanAfterStage eng co tmo secs).1 = [] := by
  have h1 := stagedNames_of_safe _ (orphanCbs_all_safe co eng.prepareCbs 2)
  have h2 := stagedNames_of_safe _ (orphanCbs_all_safe co eng.commitCbs
    ((orphanCbs co eng.prepareCbs 2).2 + 1))
  dsimp only [orphanAfterStage]
  repeat' split
  all_goals
    simp only [stagedNames, List.filterMap_append, List.filterMap_cons,
      List.filterMap_nil, emit_cancellation_complete] at h1 h2 ⊢
  all_goals simp [h1, h2]

theorem find?_isSome_of_mem_orphanNames (db : List LocalPkg) (n : String)
    (h : n ∈ orphanNames db) :
    (db.find? fun p => p.name == n).isSome = true := by
  unfold orphanNames at h
  obtain ⟨p, hp, rfl⟩ := List.mem_map.mp h
  rw [List.mem_filter] at hp
  exact List.find?_isSome.mpr ⟨p, hp.1, by simp⟩

theorem stagedNames_stageOrphans (db : List LocalPkg) (rerr : String → Option String)
    (names : List String)
    (h : ∀ n ∈ names, (db.find? fun p => p.name == n).isSome = true) :
    stagedNames (stageOrphans db rerr names) = names := by
  induction names with
  | nil => rfl
  | cons n rest ih =>
    rw [stageOrphans]
    have hn := h n (List.mem_cons_self n rest)
    have hrest := ih fun m hm => h m (List.mem_cons_of_mem _ hm)
    cases hf : db.find? (fun p => p.name == n) with
    | none => rw [hf] at hn; simp at hn
    | some p =>
      cases hr : rerr n <;>
        simp [stagedNames, List.filterMap_append, List.filterMap_cons, hr,
          stagedNames] at hrest ⊢ <;>
        exact hrest

/-- C8: `remove_orphans` computes the orphan set as a read-only query over
the local database — a package is selected iff its install reason is
dependency, its required-by list is empty and its optional-for list is
empty — the set is a pure function of the database snapshot taken before
any transaction call, and exactly that set is passed to `trans_remove_pkg`
under a transaction initialized with the RECURSE flag. -/
theorem C8_orphan_query_and_staging :
    (∀ (db : List LocalPkg) (p : LocalPkg), p ∈ db →
      p.reason = PackageReason.Depend → p.required_by = [] → p.optional_for = [] →
      p.name ∈ orphanNames db)
  ∧ (∀ (db : List LocalPkg) (p : LocalPkg), p ∈ db →
      (db.map LocalPkg.name).Nodup → p.name ∈ orphanNames db →
      p.reason = PackageReason.Depend ∧ p.required_by = [] ∧ p.optional_for = [])
  ∧ (∀ (eng : OrphanEngine) (co tmo : Nat → Bool) (secs : Nat),
      eng.handleOk = true → eng.initOk = true → co 0 = false → tmo 0 = false →
      stagedNames (removeOrphans eng co tmo secs).1 = orphanNames eng.localdb
      ∧ ((orphanNames eng.localdb).isEmpty = false →
          Action.transInit true ∈ (removeOrphans eng co tmo secs).1)) := by
  refine ⟨?_, ?_, ?_⟩
  · intro db p hp hre hrb hof
    unfold orphanNames
    apply List.mem_map_of_mem
    rw [List.mem_filter]
    exact ⟨hp, by simp [hre, hrb, hof]⟩
  · intro db p hp hnd hmem
    unfold orphanNames at hmem
    obtain ⟨q, hq, hqe⟩ := List.mem_map.mp hmem
    rw [List.mem_filter] at hq
    obtain ⟨hqdb, hqpred⟩ := hq
    have hqp : q = p := List.inj_on_of_nodup_map hnd hqdb hp hqe
    subst hqp
    simp only [Bool.and_eq_true, beq_iff_eq, List.isEmpty_iff] at hqpred
    exact ⟨hqpred.1.1, hqpred.1.2, hqpred.2⟩
  · intro eng co tmo secs hh hi hc0 ht0
    cases ho : (orphanNames eng.localdb).isEmpty with
    | true =>
      have ho2 : orphanNames eng.localdb = [] := List.isEmpty_iff.mp ho
      constructor
      · simp [removeOrphans, hh, ho, stagedNames, ho2]
      · intro hne
        exact absurd hne (by decide)
    | false =>
      have htr : (removeOrphans eng co tmo secs).1
          = ([Action.transInit true]
              ++ stageOrphans eng.localdb eng.removePkgErr
                (orphanNames eng.localdb))
            ++ (orphanAfterStage eng co tmo secs).1 := by
        simp [removeOrphans, hh, ho, hc0, ht0, hi, check_cancel, List.append_assoc]
      constructor
      · rw [htr]
        simp only [stagedNames, List.filterMap_append, List.filterMap_cons,
          List.filterMap_nil]
        have hs := stagedNames_stageOrphans eng.localdb eng.removePkgErr
          (orphanNames eng.localdb)
          (fun n hn => find?_isSome_of_mem_orphanNames eng.localdb n hn)
        rw [stagedNames] at hs
        have hafter := stagedNames_orphanAfterStage eng co tmo secs
        rw [stagedNames] at hafter
        simp [hs, hafter]
      · intro _
        rw [htr]
        simp

/-- C8 witness: the theorem applied to a concrete two-package database in
which exactly one package satisfies the orphan predicate. -/
theorem C8_orphan_query_and_staging_witness :
    "liborphan" ∈ orphanNames demoDb
  ∧ (PackageReason.Depend = PackageReason.Depend
      ∧ ([] : List String) = [] ∧ ([] : List String) = [])
  ∧ (stagedNames (removeOrphans demoOrphanEng quiet quiet 300).1
        = orphanNames demoDb
      ∧ Action.transInit true ∈ (removeOrphans demoOrphanEng quiet quiet 300).1) := by
  have h1 := C8_orphan_query_and_staging.1 demoDb ⟨"liborphan", .Depend, [], []⟩
    (by decide) rfl rfl rfl
  have h2 := C8_orphan_query_and_staging.2.1 demoDb ⟨"liborphan", .Depend, [], []⟩
    (by decide) (by decide) h1
  have h3 := C8_orphan_query_and_staging.2.2 demoOrphanEng quiet quiet 300
    rfl rfl rfl rfl
  exact ⟨h1, h2, h3.1, h3.2 (by decide)⟩

end CockpitPacman
